import Mathlib

/-!
Shallow embedding of `src/black_scholes.py` (class `BlackScholesPricer`).

Numbers are modelled by the real numbers: `np.exp`, `np.log`, `np.sqrt`
are `Real.exp`, `Real.log`, `Real.sqrt`, and the SciPy library functions
`norm.pdf` / `norm.cdf` (standard normal density and cumulative
distribution) are modelled by their mathematical definitions `normPdf` /
`normCdf` below.  The float codomain of `_d1` contains `np.inf` and
`-np.inf`, so `_d1` / `_d2` are embedded with codomain `EReal`;
`norm.cdf` and `norm.pdf` applied to possibly-infinite arguments are
`cdfE` / `pdfE` (SciPy returns `cdf(inf) = 1`, `cdf(-inf) = 0`,
`pdf(±inf) = 0`).
-/

namespace BlackScholes

open MeasureTheory Set

/-- Standard normal density, the model of SciPy `norm.pdf`:
`exp (-x^2/2) / sqrt (2*pi)`. -/
noncomputable def normPdf (x : ℝ) : ℝ :=
  (Real.sqrt (2 * Real.pi))⁻¹ * Real.exp (-(x ^ 2) / 2)

/-- Standard normal cumulative distribution, the model of SciPy
`norm.cdf`: the integral of the density over `(-∞, x]`. -/
noncomputable def normCdf (x : ℝ) : ℝ :=
  ∫ t in Iic x, normPdf t

theorem normPdf_nonneg (x : ℝ) : 0 ≤ normPdf x :=
  mul_nonneg (inv_nonneg.mpr (Real.sqrt_nonneg _)) (Real.exp_pos _).le

theorem normPdf_neg (x : ℝ) : normPdf (-x) = normPdf x := by
  simp [normPdf, neg_pow]

theorem exp_neg_sq_half_eq (x : ℝ) :
    Real.exp (-(x ^ 2) / 2) = Real.exp (-(1 / 2 : ℝ) * x ^ 2) := by
  ring_nf

theorem integrable_normPdf : Integrable normPdf := by
  have h : Integrable (fun x : ℝ => Real.exp (-(1 / 2 : ℝ) * x ^ 2)) :=
    integrable_exp_neg_mul_sq (by norm_num)
  have h2 : normPdf = fun x : ℝ =>
      (Real.sqrt (2 * Real.pi))⁻¹ * Real.exp (-(1 / 2 : ℝ) * x ^ 2) := by
    funext x
    rw [normPdf, exp_neg_sq_half_eq]
  rw [h2]
  exact h.const_mul _

theorem sqrt_two_pi_pos : 0 < Real.sqrt (2 * Real.pi) :=
  Real.sqrt_pos.mpr (by positivity)

theorem integral_normPdf : ∫ x, normPdf x = 1 := by
  have h2 : normPdf = fun x : ℝ =>
      (Real.sqrt (2 * Real.pi))⁻¹ * Real.exp (-(1 / 2 : ℝ) * x ^ 2) := by
    funext x
    rw [normPdf, exp_neg_sq_half_eq]
  rw [h2, integral_mul_left, integral_gaussian]
  have hπ : Real.pi / (1 / 2) = 2 * Real.pi := by ring
  rw [hπ]
  exact inv_mul_cancel₀ (ne_of_gt sqrt_two_pi_pos)

theorem normCdf_nonneg (x : ℝ) : 0 ≤ normCdf x :=
  setIntegral_nonneg measurableSet_Iic fun t _ => normPdf_nonneg t

theorem normCdf_le_one (x : ℝ) : normCdf x ≤ 1 := by
  have h : ∫ t in Iic x, normPdf t ≤ ∫ t, normPdf t :=
    setIntegral_le_integral integrable_normPdf
      (Filter.Eventually.of_forall normPdf_nonneg)
  rw [integral_normPdf] at h
  exact h

theorem normCdf_add_neg (x : ℝ) : normCdf x + normCdf (-x) = 1 := by
  have hsym := integral_comp_neg_Iic (-x) normPdf
  simp only [normPdf_neg, neg_neg] at hsym
  have hsplit : (∫ t in Iic x, normPdf t) + ∫ t in Ioi x, normPdf t
      = ∫ t, normPdf t :=
    intervalIntegral.integral_Iic_add_Ioi
      integrable_normPdf.integrableOn integrable_normPdf.integrableOn
  rw [integral_normPdf] at hsplit
  unfold normCdf
  rw [hsym]
  exact hsplit

theorem normCdf_neg (x : ℝ) : normCdf (-x) = 1 - normCdf x := by
  have := normCdf_add_neg x
  linarith

open scoped Classical

/-- SciPy `norm.cdf` on the extended reals: `cdf(inf) = 1`, `cdf(-inf) = 0`,
and `normCdf` on finite arguments. -/
noncomputable def cdfE (x : EReal) : ℝ :=
  if x = ⊤ then 1 else if x = ⊥ then 0 else normCdf x.toReal

/-- SciPy `norm.pdf` on the extended reals: `pdf(±inf) = 0`, and `normPdf`
on finite arguments. -/
noncomputable def pdfE (x : EReal) : ℝ :=
  if x = ⊤ then 0 else if x = ⊥ then 0 else normPdf x.toReal

theorem cdfE_coe (x : ℝ) : cdfE x = normCdf x := by
  rw [cdfE, if_neg (EReal.coe_ne_top x), if_neg (EReal.coe_ne_bot x),
    EReal.toReal_coe]

theorem pdfE_coe (x : ℝ) : pdfE x = normPdf x := by
  rw [pdfE, if_neg (EReal.coe_ne_top x), if_neg (EReal.coe_ne_bot x),
    EReal.toReal_coe]

theorem cdfE_mem_Icc (x : EReal) : cdfE x ∈ Icc (0 : ℝ) 1 := by
  unfold cdfE
  split_ifs
  · constructor <;> norm_num
  · constructor <;> norm_num
  · exact ⟨normCdf_nonneg _, normCdf_le_one _⟩

theorem pdfE_nonneg (x : EReal) : 0 ≤ pdfE x := by
  unfold pdfE
  split_ifs
  · exact le_refl 0
  · exact le_refl 0
  · exact normPdf_nonneg _

/-- State of the Python class `BlackScholesPricer`: the five numeric
fields and the option kind string, exactly the attributes stored by
`__init__`. -/
structure BlackScholesPricer where
  S : ℝ
  K : ℝ
  T : ℝ
  r : ℝ
  sigma : ℝ
  option_type : String

/-- The two distinguishable `ValueError` sites in `__init__`: the message
for an invalid option kind and the message for a negative volatility or
maturity. -/
inductive ValueErrorKind where
  | invalidOptionType
  | negativeParam
deriving DecidableEq

/-- Model of the Python string method `lower`: maps every character of
the string to its lowercase form. -/
def strLower (s : String) : String := ⟨s.data.map Char.toLower⟩

/-- Model of `BlackScholesPricer.__init__`: lowercases the kind, rejects a
kind outside call/put, rejects `sigma < 0 or T < 0`, and otherwise stores
exactly the five numeric fields and the normalized kind. -/
noncomputable def mkPricer (S K T r sigma : ℝ) (option_type : String) :
    Except ValueErrorKind BlackScholesPricer :=
  let c : BlackScholesPricer := ⟨S, K, T, r, sigma, strLower option_type⟩
  if c.option_type ∉ ["call", "put"] then .error .invalidOptionType
  else if c.sigma < 0 ∨ c.T < 0 then .error .negativeParam
  else .ok c

/-- The finite d1 formula from the `T ≠ 0` branch of `_d1`. -/
noncomputable def d1Formula (c : BlackScholesPricer) : ℝ :=
  (Real.log (c.S / c.K) + (c.r + 0.5 * c.sigma ^ 2) * c.T) /
    (c.sigma * Real.sqrt c.T)

/-- Model of `_d1`: at `T = 0` it returns `np.inf` when `S > K` and
`-np.inf` otherwise; else the finite formula. -/
noncomputable def d1 (c : BlackScholesPricer) : EReal :=
  if c.T = 0 then (if c.S > c.K then ⊤ else ⊥) else ((d1Formula c : ℝ) : EReal)

/-- Model of `_d2`: `_d1() - sigma * sqrt(T)`. -/
noncomputable def d2 (c : BlackScholesPricer) : EReal :=
  d1 c - ((c.sigma * Real.sqrt c.T : ℝ) : EReal)

/-- The finite d2 formula valid when `T ≠ 0`. -/
noncomputable def d2Formula (c : BlackScholesPricer) : ℝ :=
  d1Formula c - c.sigma * Real.sqrt c.T

theorem d1_of_ne (c : BlackScholesPricer) (h : c.T ≠ 0) :
    d1 c = ((d1Formula c : ℝ) : EReal) :=
  if_neg h

theorem d2_of_ne (c : BlackScholesPricer) (h : c.T ≠ 0) :
    d2 c = ((d2Formula c : ℝ) : EReal) := by
  rw [d2, d1_of_ne c h, d2Formula, EReal.coe_sub]

/-- Model of `price`: the `T = 0` intrinsic-payoff short circuit, then
the Black-Scholes closed forms for call and put. -/
noncomputable def price (c : BlackScholesPricer) : ℝ :=
  if c.T = 0 then
    if c.option_type = "call" then max (c.S - c.K) 0 else max (c.K - c.S) 0
  else if c.option_type = "call" then
    c.S * cdfE (d1 c) - c.K * Real.exp (-c.r * c.T) * cdfE (d2 c)
  else
    c.K * Real.exp (-c.r * c.T) * cdfE (-(d2 c)) - c.S * cdfE (-(d1 c))

/-- Model of `delta`: `norm.cdf(d1)` for a call, `norm.cdf(d1) - 1`
otherwise. -/
noncomputable def delta (c : BlackScholesPricer) : ℝ :=
  if c.option_type = "call" then cdfE (d1 c) else cdfE (d1 c) - 1

/-- Model of `gamma`: `norm.pdf(d1) / (S * sigma * sqrt(T))`, with no
read of the option kind. -/
noncomputable def gamma (c : BlackScholesPricer) : ℝ :=
  pdfE (d1 c) / (c.S * c.sigma * Real.sqrt c.T)

/-- Model of `vega`: `S * sqrt(T) * norm.pdf(d1)`, with no read of the
option kind. -/
noncomputable def vega (c : BlackScholesPricer) : ℝ :=
  c.S * Real.sqrt c.T * pdfE (d1 c)

/-- Model of `theta`. -/
noncomputable def theta (c : BlackScholesPricer) : ℝ :=
  let term1 := -(c.S * pdfE (d1 c) * c.sigma) / (2 * Real.sqrt c.T)
  if c.option_type = "call" then
    term1 + -(c.r * c.K * Real.exp (-c.r * c.T) * cdfE (d2 c))
  else
    term1 + c.r * c.K * Real.exp (-c.r * c.T) * cdfE (-(d2 c))

/-- Model of `rho`. -/
noncomputable def rho (c : BlackScholesPricer) : ℝ :=
  if c.option_type = "call" then
    c.K * c.T * Real.exp (-c.r * c.T) * cdfE (d2 c)
  else
    -c.K * c.T * Real.exp (-c.r * c.T) * cdfE (-(d2 c))

/-- Model of the Newton loop inside `implied_volatility`, by explicit
state passing: each iteration first overwrites the stored volatility with
the current estimate (`self.sigma = sigma`), prices, tests convergence,
tests vega underflow, and otherwise takes the unguarded Newton step.  The
returned pair is the Python return value (`float | None`, with `None` for
both failure exits) together with the final state of the instance. -/
noncomputable def ivLoop (target_price tol : ℝ) :
    BlackScholesPricer → ℝ → ℕ → Option ℝ × BlackScholesPricer
  | c, _, 0 => (none, c)
  | c, sigma, n + 1 =>
    let c' : BlackScholesPricer := { c with sigma := sigma }
    let p := price c'
    let v := vega c'
    let diff := target_price - p
    if |diff| < tol then (some sigma, c')
    else if |v| < 1e-8 then (none, c')
    else ivLoop target_price tol c' (sigma + diff / v) n

/-- Model of `implied_volatility`: runs the Newton loop from the fixed
seed `sigma = 0.5`. -/
noncomputable def implied_volatility (c : BlackScholesPricer)
    (target_price tol : ℝ) (max_iter : ℕ) : Option ℝ × BlackScholesPricer :=
  ivLoop target_price tol c 0.5 max_iter

/-- The successive volatility estimates at which the Newton loop actually
evaluates the model (assigns `self.sigma` and computes price and vega),
in order. -/
noncomputable def ivEvals (target_price tol : ℝ) :
    BlackScholesPricer → ℝ → ℕ → List ℝ
  | _, _, 0 => []
  | c, sigma, n + 1 =>
    let c' : BlackScholesPricer := { c with sigma := sigma }
    let p := price c'
    let v := vega c'
    let diff := target_price - p
    if |diff| < tol then [sigma]
    else if |v| < 1e-8 then [sigma]
    else sigma :: ivEvals target_price tol c' (sigma + diff / v) n

/-- Modelled from the spec: the result signature of §6,
`implied_volatility → float | Failure(reason ∈ {vega_underflow,
max_iterations_exceeded})`, as a tagged sum distinguishing the two
failure reasons. -/
inductive IVFailure where
  | vega_underflow
  | max_iterations_exceeded
deriving DecidableEq

/-- Modelled from the spec: the same Newton recursion as `ivLoop`, but
with a tagged result that records which of the two failure exits was
taken, as the signature of §6 requires. -/
noncomputable def ivLoopTagged (target_price tol : ℝ) :
    BlackScholesPricer → ℝ → ℕ → (ℝ ⊕ IVFailure) × BlackScholesPricer
  | c, _, 0 => (Sum.inr IVFailure.max_iterations_exceeded, c)
  | c, sigma, n + 1 =>
    let c' : BlackScholesPricer := { c with sigma := sigma }
    let p := price c'
    let v := vega c'
    let diff := target_price - p
    if |diff| < tol then (Sum.inl sigma, c')
    else if |v| < 1e-8 then (Sum.inr IVFailure.vega_underflow, c')
    else ivLoopTagged target_price tol c' (sigma + diff / v) n

/-- The caller-visible view of a tagged outcome: a success carries the
volatility, and every failure collapses to the sentinel `none`. -/
def sentinelView : ℝ ⊕ IVFailure → Option ℝ
  | Sum.inl s => some s
  | Sum.inr _ => none

theorem ivLoop_eq_tagged (target_price tol : ℝ) :
    ∀ (n : ℕ) (c : BlackScholesPricer) (sigma : ℝ),
      ivLoop target_price tol c sigma n =
        (sentinelView (ivLoopTagged target_price tol c sigma n).1,
         (ivLoopTagged target_price tol c sigma n).2) := by
  intro n
  induction n with
  | zero => intro c sigma; rfl
  | succ n ih =>
    intro c sigma
    rw [ivLoop, ivLoopTagged]
    split_ifs <;> simp [sentinelView, ih]

theorem price_call_of_zero (c : BlackScholesPricer) (hk : c.option_type = "call")
    (hT : c.T = 0) : price c = max (c.S - c.K) 0 := by
  rw [price, if_pos hT, if_pos hk]

theorem price_put_of_zero (c : BlackScholesPricer) (hk : c.option_type = "put")
    (hT : c.T = 0) : price c = max (c.K - c.S) 0 := by
  rw [price, if_pos hT, if_neg (by rw [hk]; decide)]

theorem price_call_of_ne (c : BlackScholesPricer) (hk : c.option_type = "call")
    (hT : c.T ≠ 0) :
    price c = c.S * normCdf (d1Formula c)
      - c.K * Real.exp (-c.r * c.T) * normCdf (d2Formula c) := by
  rw [price, if_neg hT, if_pos hk, d1_of_ne c hT, d2_of_ne c hT, cdfE_coe, cdfE_coe]

theorem price_put_of_ne (c : BlackScholesPricer) (hk : c.option_type = "put")
    (hT : c.T ≠ 0) :
    price c = c.K * Real.exp (-c.r * c.T) * normCdf (-(d2Formula c))
      - c.S * normCdf (-(d1Formula c)) := by
  rw [price, if_neg hT, if_neg (by rw [hk]; decide), d1_of_ne c hT, d2_of_ne c hT,
    ← EReal.coe_neg, ← EReal.coe_neg, cdfE_coe, cdfE_coe]

/-- C1: for every contract, `price()` returns exactly the intrinsic payoff
when `T = 0` (`max(S-K,0)` for a call, `max(K-S,0)` for a put), a value
that involves neither d1 nor d2; and when `T ≠ 0` it returns the
Black-Scholes closed forms, where d1 and d2 below are spelled out as the
formulas of the spec, `d1 = (ln(S/K) + (r + 0.5*sigma^2)*T)/(sigma*sqrt T)`
and `d2 = d1 - sigma*sqrt T`. -/
theorem price_spec (S K T r sigma : ℝ) :
    price ⟨S, K, T, r, sigma, "call"⟩ =
      (if T = 0 then max (S - K) 0 else
        S * normCdf ((Real.log (S / K) + (r + 0.5 * sigma ^ 2) * T) /
            (sigma * Real.sqrt T))
          - K * Real.exp (-r * T) *
            normCdf ((Real.log (S / K) + (r + 0.5 * sigma ^ 2) * T) /
                (sigma * Real.sqrt T) - sigma * Real.sqrt T)) ∧
    price ⟨S, K, T, r, sigma, "put"⟩ =
      (if T = 0 then max (K - S) 0 else
        K * Real.exp (-r * T) *
            normCdf (-((Real.log (S / K) + (r + 0.5 * sigma ^ 2) * T) /
                (sigma * Real.sqrt T) - sigma * Real.sqrt T))
          - S * normCdf (-((Real.log (S / K) + (r + 0.5 * sigma ^ 2) * T) /
              (sigma * Real.sqrt T)))) := by
  by_cases hT : T = 0
  · rw [if_pos hT, if_pos hT]
    exact ⟨price_call_of_zero _ rfl hT, price_put_of_zero _ rfl hT⟩
  · rw [if_neg hT, if_neg hT]
    exact ⟨price_call_of_ne _ rfl hT, price_put_of_ne _ rfl hT⟩

/-- C4: put-call parity.  For parameters with `T ≥ 0` and `sigma ≥ 0`, the
call price minus the put price equals `S - K * exp (-r*T)` exactly (hence
in particular within any floating tolerance). -/
theorem put_call_parity (S K T r sigma : ℝ) (hT : 0 ≤ T) (hσ : 0 ≤ sigma) :
    price ⟨S, K, T, r, sigma, "call"⟩ - price ⟨S, K, T, r, sigma, "put"⟩
      = S - K * Real.exp (-r * T) := by
  by_cases hT0 : T = 0
  · rw [price_call_of_zero _ rfl hT0, price_put_of_zero _ rfl hT0, hT0]
    have hmax : max (S - K) 0 - max (K - S) 0 = S - K := by
      rcases le_total S K with h | h
      · rw [max_eq_right (by linarith : S - K ≤ 0),
          max_eq_left (by linarith : (0 : ℝ) ≤ K - S)]
        ring
      · rw [max_eq_left (by linarith : (0 : ℝ) ≤ S - K),
          max_eq_right (by linarith : K - S ≤ 0)]
        ring
    simp only [hmax, mul_zero, neg_zero, Real.exp_zero, mul_one]
  · rw [price_call_of_ne _ rfl hT0, price_put_of_ne _ rfl hT0]
    have h1 : d1Formula ⟨S, K, T, r, sigma, "put"⟩
        = d1Formula ⟨S, K, T, r, sigma, "call"⟩ := rfl
    have h2 : d2Formula ⟨S, K, T, r, sigma, "put"⟩
        = d2Formula ⟨S, K, T, r, sigma, "call"⟩ := rfl
    rw [h1, h2, normCdf_neg, normCdf_neg]
    ring

/-- C4 witness at `S=100, K=100, T=1, r=0.05, sigma=0.3`. -/
theorem put_call_parity_witness :
    (0 : ℝ) ≤ 1 ∧ (0 : ℝ) ≤ 0.3 ∧
    price ⟨100, 100, 1, 0.05, 0.3, "call"⟩ - price ⟨100, 100, 1, 0.05, 0.3, "put"⟩
      = 100 - 100 * Real.exp (-0.05 * 1) :=
  ⟨by norm_num, by norm_num,
    put_call_parity 100 100 1 0.05 0.3 (by norm_num) (by norm_num)⟩

/-- C6: at `T = 0` the d1 query returns the top extended real (`np.inf`)
when `S > K` and the bottom one (`-np.inf`) otherwise, including at
`S = K`, instead of dividing by zero; and d2 is `d1 - sigma * sqrt T` in
all cases. -/
theorem d1_d2_boundary (c : BlackScholesPricer) :
    (c.T = 0 → (c.S > c.K → d1 c = ⊤) ∧ (¬c.S > c.K → d1 c = ⊥)) ∧
    d2 c = d1 c - ((c.sigma * Real.sqrt c.T : ℝ) : EReal) := by
  refine ⟨fun hT => ⟨fun hSK => ?_, fun hSK => ?_⟩, rfl⟩
  · rw [d1, if_pos hT, if_pos hSK]
  · rw [d1, if_pos hT, if_neg hSK]

/-- C6 witness at `T = 0` and `S = K` (the at-the-money boundary case). -/
theorem d1_d2_boundary_witness :
    (⟨1, 1, 0, 0, 0.2, "call"⟩ : BlackScholesPricer).T = 0 ∧
    ¬(⟨1, 1, 0, 0, 0.2, "call"⟩ : BlackScholesPricer).S
      > (⟨1, 1, 0, 0, 0.2, "call"⟩ : BlackScholesPricer).K ∧
    d1 ⟨1, 1, 0, 0, 0.2, "call"⟩ = ⊥ ∧
    d2 ⟨1, 1, 0, 0, 0.2, "call"⟩ = d1 ⟨1, 1, 0, 0, 0.2, "call"⟩
      - (((⟨1, 1, 0, 0, 0.2, "call"⟩ : BlackScholesPricer).sigma
          * Real.sqrt (⟨1, 1, 0, 0, 0.2, "call"⟩ : BlackScholesPricer).T : ℝ) : EReal) :=
  ⟨rfl, by norm_num,
    ((d1_d2_boundary ⟨1, 1, 0, 0, 0.2, "call"⟩).1 rfl).2 (by norm_num),
    (d1_d2_boundary ⟨1, 1, 0, 0, 0.2, "call"⟩).2⟩

/-- C7: for positive spot, strike, maturity and volatility, the call delta
lies in `[0, 1]` and the put delta lies in `[-1, 0]`. -/
theorem delta_bounds (S K T r sigma : ℝ) (hS : 0 < S) (hK : 0 < K)
    (hT : 0 < T) (hσ : 0 < sigma) :
    delta ⟨S, K, T, r, sigma, "call"⟩ ∈ Icc (0 : ℝ) 1 ∧
    delta ⟨S, K, T, r, sigma, "put"⟩ ∈ Icc (-1 : ℝ) 0 := by
  have hc := cdfE_mem_Icc (d1 ⟨S, K, T, r, sigma, "call"⟩)
  have hp := cdfE_mem_Icc (d1 ⟨S, K, T, r, sigma, "put"⟩)
  constructor
  · rw [delta, if_pos rfl]
    exact hc
  · rw [delta,
      if_neg (show ¬("put" : String) = "call" by decide)]
    exact ⟨by linarith [hp.1], by linarith [hp.2]⟩

/-- C7 witness at `S=100, K=100, T=1, r=0.05, sigma=0.2`. -/
theorem delta_bounds_witness :
    (0 : ℝ) < 100 ∧ (0 : ℝ) < 1 ∧ (0 : ℝ) < 0.2 ∧
    delta ⟨100, 100, 1, 0.05, 0.2, "call"⟩ ∈ Icc (0 : ℝ) 1 ∧
    delta ⟨100, 100, 1, 0.05, 0.2, "put"⟩ ∈ Icc (-1 : ℝ) 0 :=
  ⟨by norm_num, by norm_num, by norm_num,
    delta_bounds 100 100 1 0.05 0.2 (by norm_num) (by norm_num) (by norm_num)
      (by norm_num)⟩

/-- C8: for positive spot, strike, maturity and volatility, gamma and vega
are nonnegative, and each takes the identical value on the call contract
and the put contract built from the same numeric parameters (neither
definition reads the kind field). -/
theorem gamma_vega_spec (S K T r sigma : ℝ) (hS : 0 < S) (hK : 0 < K)
    (hT : 0 < T) (hσ : 0 < sigma) :
    0 ≤ gamma ⟨S, K, T, r, sigma, "call"⟩ ∧
    0 ≤ vega ⟨S, K, T, r, sigma, "call"⟩ ∧
    gamma ⟨S, K, T, r, sigma, "call"⟩ = gamma ⟨S, K, T, r, sigma, "put"⟩ ∧
    vega ⟨S, K, T, r, sigma, "call"⟩ = vega ⟨S, K, T, r, sigma, "put"⟩ := by
  refine ⟨?_, ?_, rfl, rfl⟩
  · exact div_nonneg (pdfE_nonneg _) (by positivity)
  · exact mul_nonneg (mul_nonneg hS.le (Real.sqrt_nonneg _)) (pdfE_nonneg _)

/-- C8 witness at `S=100, K=100, T=1, r=0.05, sigma=0.2`. -/
theorem gamma_vega_spec_witness :
    (0 : ℝ) < 100 ∧ (0 : ℝ) < 1 ∧ (0 : ℝ) < 0.2 ∧
    (0 ≤ gamma ⟨100, 100, 1, 0.05, 0.2, "call"⟩ ∧
     0 ≤ vega ⟨100, 100, 1, 0.05, 0.2, "call"⟩ ∧
     gamma ⟨100, 100, 1, 0.05, 0.2, "call"⟩ = gamma ⟨100, 100, 1, 0.05, 0.2, "put"⟩ ∧
     vega ⟨100, 100, 1, 0.05, 0.2, "call"⟩ = vega ⟨100, 100, 1, 0.05, 0.2, "put"⟩) :=
  ⟨by norm_num, by norm_num, by norm_num,
    gamma_vega_spec 100 100 1 0.05 0.2 (by norm_num) (by norm_num) (by norm_num)
      (by norm_num)⟩

theorem mkPricer_eq (S K T r sigma : ℝ) (kind : String) :
    mkPricer S K T r sigma kind =
      if strLower kind ∉ (["call", "put"] : List String) then
        Except.error ValueErrorKind.invalidOptionType
      else if sigma < 0 ∨ T < 0 then Except.error ValueErrorKind.negativeParam
      else Except.ok ⟨S, K, T, r, sigma, strLower kind⟩ :=
  rfl

/-- C2: construction lowercases the kind and rejects a normalized kind
outside call/put with the invalid-kind error, rejects `sigma < 0` or
`T < 0` with the distinct negative-parameter error (in particular each of
the inputs `kind = "straddle"`, `sigma = -0.1`, `T = -1` is rejected), the
two error conditions are distinguishable, and on valid input it returns a
state holding exactly the five numeric fields and the normalized kind. -/
theorem construction_validation (S K T r sigma : ℝ) (kind : String) :
    (strLower kind ∉ (["call", "put"] : List String) →
      mkPricer S K T r sigma kind = .error .invalidOptionType) ∧
    (strLower kind ∈ (["call", "put"] : List String) → (sigma < 0 ∨ T < 0) →
      mkPricer S K T r sigma kind = .error .negativeParam) ∧
    (strLower kind ∈ (["call", "put"] : List String) → ¬sigma < 0 → ¬T < 0 →
      mkPricer S K T r sigma kind = .ok ⟨S, K, T, r, sigma, strLower kind⟩) ∧
    ValueErrorKind.invalidOptionType ≠ ValueErrorKind.negativeParam ∧
    (∀ S' K' T' r' sig' : ℝ,
      mkPricer S' K' T' r' sig' "straddle" = .error .invalidOptionType) ∧
    (∀ S' K' T' r' : ℝ,
      mkPricer S' K' T' r' (-0.1) "call" = .error .negativeParam) ∧
    (∀ S' K' r' sig' : ℝ,
      mkPricer S' K' (-1) r' sig' "call" = .error .negativeParam) := by
  refine ⟨fun h => ?_, fun h hneg => ?_, fun h hσ hT => ?_, by decide,
    fun S' K' T' r' sig' => ?_, fun S' K' T' r' => ?_, fun S' K' r' sig' => ?_⟩
  · rw [mkPricer_eq, if_pos h]
  · rw [mkPricer_eq, if_neg (not_not_intro h), if_pos hneg]
  · rw [mkPricer_eq, if_neg (not_not_intro h),
      if_neg (by push_neg; exact ⟨le_of_not_lt hσ, le_of_not_lt hT⟩)]
  · rw [mkPricer_eq, if_pos (by decide)]
  · rw [mkPricer_eq, if_neg (by decide), if_pos (Or.inl (by norm_num))]
  · rw [mkPricer_eq, if_neg (by decide), if_pos (Or.inr (by norm_num))]

/-- C2 witness: the mixed-case kind string is normalized and a fully
valid input constructs the stored state. -/
theorem construction_validation_witness :
    strLower "Call" ∈ (["call", "put"] : List String) ∧ ¬(0.2 : ℝ) < 0 ∧
    ¬(1 : ℝ) < 0 ∧
    mkPricer 100 90 1 0.05 0.2 "Call" = .ok ⟨100, 90, 1, 0.05, 0.2, strLower "Call"⟩ :=
  ⟨by decide, by norm_num, by norm_num,
    (construction_validation 100 90 1 0.05 0.2 "Call").2.2.1 (by decide)
      (by norm_num) (by norm_num)⟩

theorem update_sigma (S K T r s s' : ℝ) (k : String) :
    ({ (⟨S, K, T, r, s, k⟩ : BlackScholesPricer) with sigma := s' })
      = (⟨S, K, T, r, s', k⟩ : BlackScholesPricer) :=
  rfl

theorem ivLoop_succ (t tol : ℝ) (c : BlackScholesPricer) (sigma : ℝ) (n : ℕ) :
    ivLoop t tol c sigma (n + 1) =
      (if |t - price { c with sigma := sigma }| < tol then
        (some sigma, { c with sigma := sigma })
      else if |vega { c with sigma := sigma }| < 1e-8 then
        (none, { c with sigma := sigma })
      else ivLoop t tol { c with sigma := sigma }
        (sigma + (t - price { c with sigma := sigma })
          / vega { c with sigma := sigma }) n) :=
  rfl

theorem ivLoopTagged_succ (t tol : ℝ) (c : BlackScholesPricer) (sigma : ℝ) (n : ℕ) :
    ivLoopTagged t tol c sigma (n + 1) =
      (if |t - price { c with sigma := sigma }| < tol then
        (Sum.inl sigma, { c with sigma := sigma })
      else if |vega { c with sigma := sigma }| < 1e-8 then
        (Sum.inr IVFailure.vega_underflow, { c with sigma := sigma })
      else ivLoopTagged t tol { c with sigma := sigma }
        (sigma + (t - price { c with sigma := sigma })
          / vega { c with sigma := sigma }) n) :=
  rfl

theorem ivEvals_succ (t tol : ℝ) (c : BlackScholesPricer) (sigma : ℝ) (n : ℕ) :
    ivEvals t tol c sigma (n + 1) =
      (if |t - price { c with sigma := sigma }| < tol then [sigma]
      else if |vega { c with sigma := sigma }| < 1e-8 then [sigma]
      else sigma :: ivEvals t tol { c with sigma := sigma }
        (sigma + (t - price { c with sigma := sigma })
          / vega { c with sigma := sigma }) n) :=
  rfl

theorem ivLoop_one_state (t tol : ℝ) (c : BlackScholesPricer) (sigma : ℝ) :
    (ivLoop t tol c sigma 1).2 = { c with sigma := sigma } := by
  rw [show (1 : ℕ) = 0 + 1 from rfl, ivLoop_succ]
  split_ifs <;> rfl

theorem ivEvals_one (t tol : ℝ) (c : BlackScholesPricer) (sigma : ℝ) :
    ivEvals t tol c sigma 1 = [sigma] := by
  rw [show (1 : ℕ) = 0 + 1 from rfl, ivEvals_succ]
  split_ifs <;> rfl

/-- C3 amended: the caller-visible result of `implied_volatility` is the
sentinel erasure of the tagged outcome — a success returns the converged
volatility as a number, while both failure reasons (vega underflow and
iteration exhaustion) collapse to the single non-numeric sentinel `none`
and are distinguished only by printed warnings, not by the returned
value. -/
theorem iv_sentinel_result (c : BlackScholesPricer) (target tol : ℝ) (n : ℕ) :
    implied_volatility c target tol n =
      (sentinelView (ivLoopTagged target tol c 0.5 n).1,
       (ivLoopTagged target tol c 0.5 n).2) ∧
    (∀ s : ℝ, sentinelView (Sum.inl s) = some s) ∧
    (∀ f : IVFailure, sentinelView (Sum.inr f) = none) :=
  ⟨ivLoop_eq_tagged target tol n c 0.5, fun _ => rfl, fun _ => rfl⟩

/-- C3 counterexample: two concrete runs hit the two distinct failure
reasons (vega underflow at `T = 0`, and iteration exhaustion with a zero
iteration budget), yet both return the identical sentinel `none` to the
caller, refuting the claim that the two failure conditions are reported
distinctly rather than coerced to a single non-numeric sentinel. -/
theorem iv_failures_share_sentinel :
    (ivLoopTagged 100 (1e-5) ⟨1, 2, 0, 0, 0.2, "call"⟩ 0.5 1).1
      = Sum.inr IVFailure.vega_underflow ∧
    (implied_volatility ⟨1, 2, 0, 0, 0.2, "call"⟩ 100 (1e-5) 1).1 = none ∧
    (ivLoopTagged 5 (1e-5) ⟨1, 2, 1, 0, 0.2, "call"⟩ 0.5 0).1
      = Sum.inr IVFailure.max_iterations_exceeded ∧
    (implied_volatility ⟨1, 2, 1, 0, 0.2, "call"⟩ 5 (1e-5) 0).1 = none := by
  have hp : price (⟨1, 2, 0, 0, 0.5, "call"⟩ : BlackScholesPricer) = 0 := by
    rw [price_call_of_zero _ rfl rfl]
    rw [max_eq_right (by norm_num : (1 : ℝ) - 2 ≤ 0)]
  have hv : vega (⟨1, 2, 0, 0, 0.5, "call"⟩ : BlackScholesPricer) = 0 := by
    rw [vega]
    norm_num [Real.sqrt_zero]
  have htag : (ivLoopTagged 100 (1e-5) ⟨1, 2, 0, 0, 0.2, "call"⟩ 0.5 1).1
      = Sum.inr IVFailure.vega_underflow := by
    rw [show (1 : ℕ) = 0 + 1 from rfl, ivLoopTagged_succ, update_sigma, hp, hv]
    rw [if_neg (by rw [sub_zero, abs_of_nonneg]; norm_num; norm_num)]
    rw [if_pos (by rw [abs_zero]; norm_num)]
  have hres : (implied_volatility ⟨1, 2, 0, 0, 0.2, "call"⟩ 100 (1e-5) 1).1
      = none := by
    rw [implied_volatility,
      ivLoop_eq_tagged 100 (1e-5) 1 ⟨1, 2, 0, 0, 0.2, "call"⟩ 0.5, htag]
    rfl
  exact ⟨htag, hres, rfl, rfl⟩

theorem ivLoop_preserves_fields (t tol : ℝ) :
    ∀ (n : ℕ) (c : BlackScholesPricer) (sigma : ℝ),
      (ivLoop t tol c sigma n).2.S = c.S ∧ (ivLoop t tol c sigma n).2.K = c.K ∧
      (ivLoop t tol c sigma n).2.T = c.T ∧ (ivLoop t tol c sigma n).2.r = c.r ∧
      (ivLoop t tol c sigma n).2.option_type = c.option_type := by
  intro n
  induction n with
  | zero => exact fun c sigma => ⟨rfl, rfl, rfl, rfl, rfl⟩
  | succ n ih =>
    intro c sigma
    rw [ivLoop_succ]
    split_ifs
    · exact ⟨rfl, rfl, rfl, rfl, rfl⟩
    · exact ⟨rfl, rfl, rfl, rfl, rfl⟩
    · exact ih _ _

theorem ivEvals_ne_nil (t tol : ℝ) (n : ℕ) (c : BlackScholesPricer) (sigma : ℝ)
    (hn : n ≠ 0) : ivEvals t tol c sigma n ≠ [] := by
  cases n with
  | zero => exact absurd rfl hn
  | succ n =>
    rw [ivEvals_succ]
    split_ifs <;> exact List.cons_ne_nil _ _

theorem getLast?_cons_of_ne_nil {α : Type} (a : α) (l : List α) (hl : l ≠ []) :
    (a :: l).getLast? = l.getLast? := by
  cases l with
  | nil => exact absurd rfl hl
  | cons b bs => exact List.getLast?_cons_cons

theorem ivLoop_last_eval (t tol : ℝ) :
    ∀ (n : ℕ) (c : BlackScholesPricer) (sigma : ℝ), n ≠ 0 →
      (ivEvals t tol c sigma n).getLast?
        = some ((ivLoop t tol c sigma n).2.sigma) := by
  intro n
  induction n with
  | zero => exact fun c sigma h => absurd rfl h
  | succ n ih =>
    intro c sigma _
    rw [ivLoop_succ, ivEvals_succ]
    split_ifs
    · rfl
    · rfl
    · cases hn0 : n with
      | zero =>
        subst hn0
        rfl
      | succ m =>
        subst hn0
        rw [getLast?_cons_of_ne_nil _ _ (ivEvals_ne_nil t tol _ _ _ (Nat.succ_ne_zero m))]
        exact ih _ _ (Nat.succ_ne_zero m)

theorem ivLoop_success_sigma (t tol : ℝ) :
    ∀ (n : ℕ) (c : BlackScholesPricer) (sigma s : ℝ),
      (ivLoop t tol c sigma n).1 = some s → (ivLoop t tol c sigma n).2.sigma = s := by
  intro n
  induction n with
  | zero =>
    intro c sigma s h
    exact absurd h (by simp [ivLoop])
  | succ n ih =>
    intro c sigma s
    rw [ivLoop_succ]
    split_ifs
    · intro h
      simpa using h
    · intro h
      exact absurd h (by simp)
    · exact ih _ _ _

/-- C5: a call to `implied_volatility` with a positive iteration budget
always leaves the stored volatility equal to the last estimate at which
the model was evaluated (also when it fails, with no rollback), leaves
the spot, strike, maturity, rate and kind fields unchanged, and on
success the stored volatility is exactly the returned one, so every
subsequently derived quantity is computed from the new stored value. -/
theorem iv_state_effect (c : BlackScholesPricer) (target tol : ℝ) (n : ℕ)
    (hn : n ≠ 0) :
    (ivEvals target tol c 0.5 n).getLast?
        = some ((implied_volatility c target tol n).2.sigma) ∧
    (implied_volatility c target tol n).2.S = c.S ∧
    (implied_volatility c target tol n).2.K = c.K ∧
    (implied_volatility c target tol n).2.T = c.T ∧
    (implied_volatility c target tol n).2.r = c.r ∧
    (implied_volatility c target tol n).2.option_type = c.option_type ∧
    (∀ s, (implied_volatility c target tol n).1 = some s →
      (implied_volatility c target tol n).2.sigma = s) := by
  have h1 := ivLoop_last_eval target tol n c 0.5 hn
  have h2 := ivLoop_preserves_fields target tol n c 0.5
  exact ⟨h1, h2.1, h2.2.1, h2.2.2.1, h2.2.2.2.1, h2.2.2.2.2,
    fun s => ivLoop_success_sigma target tol n c 0.5 s⟩

/-- C5 witness: a concrete one-iteration run. -/
theorem iv_state_effect_witness :
    (1 : ℕ) ≠ 0 ∧
    ((ivEvals 100 (1e-5) ⟨1, 2, 0, 0, 0.2, "call"⟩ 0.5 1).getLast?
        = some ((implied_volatility ⟨1, 2, 0, 0, 0.2, "call"⟩ 100 (1e-5) 1).2.sigma) ∧
     (implied_volatility ⟨1, 2, 0, 0, 0.2, "call"⟩ 100 (1e-5) 1).2.S = 1 ∧
     (implied_volatility ⟨1, 2, 0, 0, 0.2, "call"⟩ 100 (1e-5) 1).2.K = 2 ∧
     (implied_volatility ⟨1, 2, 0, 0, 0.2, "call"⟩ 100 (1e-5) 1).2.T = 0 ∧
     (implied_volatility ⟨1, 2, 0, 0, 0.2, "call"⟩ 100 (1e-5) 1).2.r = 0 ∧
     (implied_volatility ⟨1, 2, 0, 0, 0.2, "call"⟩ 100 (1e-5) 1).2.option_type = "call" ∧
     (∀ s, (implied_volatility ⟨1, 2, 0, 0, 0.2, "call"⟩ 100 (1e-5) 1).1 = some s →
       (implied_volatility ⟨1, 2, 0, 0, 0.2, "call"⟩ 100 (1e-5) 1).2.sigma = s)) :=
  ⟨Nat.one_ne_zero,
    iv_state_effect ⟨1, 2, 0, 0, 0.2, "call"⟩ 100 (1e-5) 1 Nat.one_ne_zero⟩

theorem sqrt_two_pi_le : Real.sqrt (2 * Real.pi) ≤ 2.51 := by
  have h1 : (2 : ℝ) * Real.pi ≤ 2.51 ^ 2 := by
    nlinarith [Real.pi_lt_d2]
  calc Real.sqrt (2 * Real.pi) ≤ Real.sqrt (2.51 ^ 2) := Real.sqrt_le_sqrt h1
    _ = 2.51 := Real.sqrt_sq (by norm_num)

theorem one_le_sqrt_two_pi : 1 ≤ Real.sqrt (2 * Real.pi) := by
  have h1 : (1 : ℝ) ≤ 2 * Real.pi := by nlinarith [Real.pi_gt_d2]
  calc (1 : ℝ) = Real.sqrt 1 := Real.sqrt_one.symm
    _ ≤ Real.sqrt (2 * Real.pi) := Real.sqrt_le_sqrt h1

theorem normPdf_quarter_bounds :
    1 / 10 ≤ normPdf (1 / 4) ∧ normPdf (1 / 4) ≤ 1 := by
  have harg : -(((1 : ℝ) / 4) ^ 2) / 2 = -(1 / 32) := by norm_num
  have hexp_lo : (31 : ℝ) / 32 ≤ Real.exp (-(1 / 32)) := by
    have := Real.add_one_le_exp (-(1 / 32 : ℝ))
    linarith
  have hexp_hi : Real.exp (-(1 / 32 : ℝ)) ≤ 1 := by
    calc Real.exp (-(1 / 32 : ℝ)) ≤ Real.exp 0 :=
          Real.exp_le_exp.mpr (by norm_num)
      _ = 1 := Real.exp_zero
  have hinv_lo : (2.51 : ℝ)⁻¹ ≤ (Real.sqrt (2 * Real.pi))⁻¹ :=
    inv_le_inv_of_le sqrt_two_pi_pos sqrt_two_pi_le
  have hinv_hi : (Real.sqrt (2 * Real.pi))⁻¹ ≤ 1 := inv_le_one one_le_sqrt_two_pi
  constructor
  · rw [normPdf, harg]
    calc (1 : ℝ) / 10 ≤ (2.51 : ℝ)⁻¹ * (31 / 32) := by norm_num
      _ ≤ (Real.sqrt (2 * Real.pi))⁻¹ * Real.exp (-(1 / 32)) :=
          mul_le_mul hinv_lo hexp_lo (by norm_num)
            (inv_nonneg.mpr (Real.sqrt_nonneg _))
  · rw [normPdf, harg]
    calc (Real.sqrt (2 * Real.pi))⁻¹ * Real.exp (-(1 / 32))
        ≤ 1 * 1 := mul_le_mul hinv_hi hexp_hi (Real.exp_pos _).le (by norm_num)
      _ = 1 := by norm_num

theorem d1Formula_atm_half : d1Formula ⟨1, 1, 1, 0, 0.5, "call"⟩ = 1 / 4 := by
  rw [d1Formula]
  norm_num [Real.sqrt_one, Real.log_one]

theorem d2Formula_atm_half : d2Formula ⟨1, 1, 1, 0, 0.5, "call"⟩ = -(1 / 4) := by
  rw [d2Formula, d1Formula_atm_half]
  norm_num [Real.sqrt_one]

theorem price_atm_half :
    price (⟨1, 1, 1, 0, 0.5, "call"⟩ : BlackScholesPricer)
      = normCdf (1 / 4) - normCdf (-(1 / 4)) := by
  rw [price_call_of_ne _ rfl (by norm_num), d1Formula_atm_half, d2Formula_atm_half]
  norm_num [Real.exp_zero]

theorem vega_atm_half :
    vega (⟨1, 1, 1, 0, 0.5, "call"⟩ : BlackScholesPricer) = normPdf (1 / 4) := by
  rw [vega, d1_of_ne _ (by norm_num), pdfE_coe, d1Formula_atm_half]
  norm_num [Real.sqrt_one]

/-- C10: with a validly constructed contract (stored volatility `0.2 ≥ 0`)
and the target price `-100`, the Newton solver takes an unguarded step to
a strictly negative volatility, evaluates the model there (the estimate
is among the evaluated ones), and leaves the instance holding that
negative volatility — so the construction invariant `sigma ≥ 0` is not
preserved by `implied_volatility`, which writes estimates into the field
without re-running construction validation. -/
theorem iv_breaks_sigma_invariant :
    0 ≤ (⟨1, 1, 1, 0, 0.2, "call"⟩ : BlackScholesPricer).sigma ∧
    (implied_volatility ⟨1, 1, 1, 0, 0.2, "call"⟩ (-100) (1e-5) 2).2.sigma < 0 ∧
    (implied_volatility ⟨1, 1, 1, 0, 0.2, "call"⟩ (-100) (1e-5) 2).2.sigma ∈
      ivEvals (-100) (1e-5) ⟨1, 1, 1, 0, 0.2, "call"⟩ 0.5 2 := by
  have hc1 := normCdf_nonneg (1 / 4)
  have hc2 := normCdf_le_one (1 / 4)
  have hc3 := normCdf_nonneg (-(1 / 4))
  have hc4 := normCdf_le_one (-(1 / 4))
  have hv1 := normPdf_quarter_bounds.1
  have hv2 := normPdf_quarter_bounds.2
  have hvpos : (0 : ℝ) < normPdf (1 / 4) := by linarith
  have hcond1 :
      ¬|(-100 : ℝ) - (normCdf (1 / 4) - normCdf (-(1 / 4)))| < 1e-5 := by
    rw [abs_of_nonpos (by linarith)]
    intro h
    linarith
  have hcond2 : ¬|normPdf (1 / 4)| < 1e-8 := by
    rw [abs_of_nonneg (by linarith)]
    intro h
    linarith
  have hstep :
      (0.5 : ℝ) + (-100 - (normCdf (1 / 4) - normCdf (-(1 / 4)))) / normPdf (1 / 4)
        < 0 := by
    have hD : (-100 : ℝ) - (normCdf (1 / 4) - normCdf (-(1 / 4))) ≤ -99 := by
      linarith
    have hDv : (-100 - (normCdf (1 / 4) - normCdf (-(1 / 4)))) / normPdf (1 / 4)
        ≤ -100 - (normCdf (1 / 4) - normCdf (-(1 / 4))) := by
      rw [div_le_iff hvpos]
      nlinarith
    linarith
  have hrun : implied_volatility ⟨1, 1, 1, 0, 0.2, "call"⟩ (-100) (1e-5) 2
      = ivLoop (-100) (1e-5) ⟨1, 1, 1, 0, 0.5, "call"⟩
        (0.5 + (-100 - (normCdf (1 / 4) - normCdf (-(1 / 4)))) / normPdf (1 / 4))
        1 := by
    rw [show implied_volatility ⟨1, 1, 1, 0, 0.2, "call"⟩ (-100) (1e-5) 2
          = ivLoop (-100) (1e-5) ⟨1, 1, 1, 0, 0.2, "call"⟩ 0.5 (1 + 1) from rfl,
      ivLoop_succ, update_sigma, price_atm_half, vega_atm_half,
      if_neg hcond1, if_neg hcond2]
  have heval : ivEvals (-100) (1e-5) ⟨1, 1, 1, 0, 0.2, "call"⟩ 0.5 2
      = [0.5,
         0.5 + (-100 - (normCdf (1 / 4) - normCdf (-(1 / 4)))) / normPdf (1 / 4)] := by
    rw [show ivEvals (-100) (1e-5) ⟨1, 1, 1, 0, 0.2, "call"⟩ 0.5 2
          = ivEvals (-100) (1e-5) ⟨1, 1, 1, 0, 0.2, "call"⟩ 0.5 (1 + 1) from rfl,
      ivEvals_succ, update_sigma, price_atm_half, vega_atm_half,
      if_neg hcond1, if_neg hcond2, ivEvals_one]
  have hsig : (implied_volatility ⟨1, 1, 1, 0, 0.2, "call"⟩ (-100) (1e-5) 2).2.sigma
      = 0.5 + (-100 - (normCdf (1 / 4) - normCdf (-(1 / 4)))) / normPdf (1 / 4) := by
    rw [hrun, ivLoop_one_state]
  refine ⟨by norm_num, ?_, ?_⟩
  · rw [hsig]
    exact hstep
  · rw [hsig, heval]
    simp

end BlackScholes
